import Mathlib

/-!
# Verification of the `myansys` stock-data collection pipeline

A shallow embedding, in Lean 4, of the resumable batch collection /
persistence pipeline of the `myansys` repository:

* `src/collector/a_stock.py` — the batch orchestrator
  (`AStockCollector.fetch_and_save_all`) and the calendar lookups
  (`get_previous_trading_day`);
* `src/collector/helpers.py` — `validate_symbol`;
* `src/database/manager.py` — `StockDatabaseManager`
  (`execute`, `bulk_upsert`, the task-progress checkpoint store,
  `get_stock_table_name`);
* `src/utils/decorators.py` — the `retry` decorator.

Python strings, dicts and sets are embedded as Lean `String`s,
association lists and duplicate-free lists; SQL `DATE` values are
embedded as `Nat` in `yyyymmdd` form (this encoding is strictly
monotone in the date order that PostgreSQL uses to compare `DATE`s).
Python exceptions are embedded as `Option`/`Except` error values.
-/

namespace MyAnsys

/-! ## Orchestrator data model (`a_stock.py`)

`fetch_and_save_all` keeps a stats dict
`{'total', 'success', 'failed', 'processed', 'records'}`
(a_stock.py lines 307–313), a set `processed_symbols` and, through the
database manager, a checkpoint store keyed by `task_id`
(`task_progress` table, one JSONB progress blob per task id). -/

/-- The five-field stats dictionary of `fetch_and_save_all`
(a_stock.py lines 307–313). -/
structure Stats where
  total : Nat
  success : Nat
  failed : Nat
  processed : Nat
  records : Nat
deriving Repr, DecidableEq

/-- The progress blob saved by `save_task_progress`
(a_stock.py lines 363–367): the current stats, the list serialization of
`processed_symbols`, and the index of the current batch start. -/
structure Progress where
  stats : Stats
  processed_symbols : List String
  current_batch : Nat
deriving Repr, DecidableEq

/-- The `task_progress` table: one progress blob per `task_id`
(`TaskProgressSchema` in models.py, `task_id` is the primary key). -/
abbrev CkptStore := List (String × Progress)

/-- `save_task_progress` (manager.py lines 565–578):
`INSERT ... ON CONFLICT (task_id) DO UPDATE SET progress_data = EXCLUDED...`
— insert the blob, or fully replace it when the key exists. -/
def saveProgress (store : CkptStore) (taskId : String) (p : Progress) : CkptStore :=
  if store.any (fun q => q.1 = taskId) then
    store.map (fun q => if q.1 = taskId then (taskId, p) else q)
  else
    store ++ [(taskId, p)]

/-- `load_task_progress` (manager.py lines 580–588):
`SELECT progress_data FROM task_progress WHERE task_id = %s`,
`None` when the task id has no stored progress. -/
def loadProgress (store : CkptStore) (taskId : String) : Option Progress :=
  match store with
  | [] => none
  | (k, p) :: rest => if k = taskId then some p else loadProgress rest taskId

/-- `delete_task_progress` (manager.py lines 592–599):
`DELETE FROM task_progress WHERE task_id = %s`. -/
def deleteProgress (store : CkptStore) (taskId : String) : CkptStore :=
  store.filter (fun q => ¬ q.1 = taskId)

/-- The provider side of one loop iteration, as the orchestrator sees it:
`fetch_history_data` followed (on non-empty data) by `save_to_database`.
`none` embeds "the fetch or the save raised an exception" (after the
`@retry` wrapper is exhausted); `some n` embeds "`fetch_history_data`
returned a list of `n` rows and, when `n > 0`, `save_to_database`
persisted it and returned `n`" (`save_to_database` returns
`bulk_upsert`'s count, which is `len(data)`, manager.py line 397). -/
abbrev Fetcher := String → Option Nat

/-- The in-memory state of the `fetch_and_save_all` loop, plus a `fetched`
trace recording the symbols for which `fetch_history_data` was actually
invoked (the entities the run fetches/persists rather than skips). -/
structure LoopState where
  processed : List String
  stats : Stats
  store : CkptStore
  fetched : List String
deriving Repr, DecidableEq

/-- Python `set.add`: insert the symbol if it is not already a member
(a_stock.py line 358). -/
def addProcessed (ps : List String) (s : String) : List String :=
  if s ∈ ps then ps else ps ++ [s]

/-- Python truthiness of the optional `task_id` argument
(`if task_id:`, a_stock.py lines 328, 362, 378): `None` and the empty
string are falsy. -/
def taskIdTruthy : Option String → Bool
  | none => false
  | some t => !t.isEmpty

/-- One iteration of the inner loop of `fetch_and_save_all`
(a_stock.py lines 342–375), for the stock at position `i` of the
universe:

* already-processed symbols are skipped, only incrementing
  `stats['processed']` (lines 345–347);
* otherwise the history is fetched; on an exception only
  `stats['failed']` is incremented and the loop continues (lines
  372–375) — the symbol is **not** added to `processed_symbols` and no
  checkpoint is written;
* on a fetch that returns data, `records` and `success` are updated;
  on an empty result, `failed` is incremented (lines 350–356);
* in both non-exception cases the symbol is added to
  `processed_symbols`, `processed` is incremented, and, when a task id
  is given, the checkpoint is saved with the batch start index
  `i - i % batch_size` (the loop variable `i` of line 338). -/
def stepStock (fetch : Fetcher) (taskId : Option String) (forceRedo : Bool)
    (batchSize : Nat) (st : LoopState) (i : Nat) (symbol : String) : LoopState :=
  if symbol ∈ st.processed ∧ ¬ forceRedo then
    { st with stats := { st.stats with processed := st.stats.processed + 1 } }
  else
    let st' := { st with fetched := st.fetched ++ [symbol] }
    match fetch symbol with
    | none =>
        { st' with stats := { st'.stats with failed := st'.stats.failed + 1 } }
    | some n =>
        let stats1 :=
          if 0 < n then
            { st'.stats with records := st'.stats.records + n,
                             success := st'.stats.success + 1 }
          else
            { st'.stats with failed := st'.stats.failed + 1 }
        let processed' := addProcessed st'.processed symbol
        let stats2 := { stats1 with processed := stats1.processed + 1 }
        let store' :=
          match taskId with
          | some t =>
              if t.isEmpty then st'.store
              else saveProgress st'.store t ⟨stats2, processed', i - i % batchSize⟩
          | none => st'.store
        ⟨processed', stats2, store', st'.fetched⟩

/-- The batched double loop of `fetch_and_save_all` (a_stock.py lines
338–375).  Batching only affects the `current_batch` value written into
the checkpoint; the iteration order is the universe order, so the loop
is a single pass with a running position index. -/
def runStocks (fetch : Fetcher) (taskId : Option String) (forceRedo : Bool)
    (batchSize : Nat) : LoopState → Nat → List String → LoopState
  | st, _, [] => st
  | st, i, s :: rest =>
      runStocks fetch taskId forceRedo batchSize
        (stepStock fetch taskId forceRedo batchSize st i s) (i + 1) rest

/-- The result of a complete `fetch_and_save_all` run: the returned
stats, the checkpoint store after the final `delete_task_progress`, the
fetched-symbols trace, and the final in-memory `processed_symbols`. -/
structure RunResult where
  stats : Stats
  store : CkptStore
  fetched : List String
  processed : List String
deriving Repr, DecidableEq

/-- `fetch_and_save_all` (a_stock.py lines 298–389):

1. `stats['total']` is set to the universe size (line 323);
2. when `task_id` is given and `force_redo` is false, the stored
   progress is loaded; if present, `processed_symbols` is seeded from it
   and `stats.update(progress['stats'])` replaces every stats field with
   the checkpoint's values (lines 326–335);
3. the batched loop runs over the whole universe;
4. when `task_id` is given, the checkpoint is deleted (lines 377–379)
   and the final stats are returned. -/
def fetchAndSaveAll (stocks : List String) (fetch : Fetcher) (batchSize : Nat)
    (taskId : Option String) (forceRedo : Bool) (store0 : CkptStore) : RunResult :=
  let stats0 : Stats := ⟨stocks.length, 0, 0, 0, 0⟩
  let progress : Option Progress :=
    match taskId, forceRedo with
    | some t, false => if t.isEmpty then none else loadProgress store0 t
    | _, _ => none
  let init : LoopState :=
    match progress with
    | some p => ⟨p.processed_symbols, p.stats, store0, []⟩
    | none => ⟨[], stats0, store0, []⟩
  let fin := runStocks fetch taskId forceRedo batchSize init 0 stocks
  let store' :=
    match taskId with
    | some t => if t.isEmpty then fin.store else deleteProgress fin.store t
    | none => fin.store
  ⟨fin.stats, store', fin.fetched, fin.processed⟩

/-- An interrupted run: the process dies after the first `k` universe
entries have been handled.  The state reached is exactly the loop state
after folding `stepStock` over the length-`k` prefix, starting from the
initial state of a fresh run (no stored progress for the task id). -/
def interruptedRun (stocks : List String) (fetch : Fetcher) (batchSize : Nat)
    (taskId : Option String) (store0 : CkptStore) (k : Nat) : LoopState :=
  runStocks fetch taskId false batchSize
    ⟨[], ⟨stocks.length, 0, 0, 0, 0⟩, store0, []⟩ 0 (stocks.take k)

/-! ## `bulk_upsert` (manager.py lines 347–401)

A per-symbol data table is embedded as a list of rows; a row is an
association list from column name to value (a Python dict, so its
column names are duplicate-free), with values embedded as `Int`
(`trade_date`, the primary key, in `yyyymmdd` form). -/

/-- A row: a Python dict from column name to value. -/
abbrev Row := List (String × Int)

/-- A `stock_hot_<symbol>` table, `trade_date` its primary key. -/
abbrev Table := List Row

/-- The primary-key value of a row (`trade_date`,
`_create_stock_hot_table_function` in manager.py line 139 and the
`ON CONFLICT (trade_date)` clause of line 389). -/
def keyOf (r : Row) : Option Int := r.lookup "trade_date"

/-- The errors `bulk_upsert` can raise: the explicit `ValueError` for an
empty update-field list (line 350); a Python `KeyError` when a row lacks
one of the first row's columns (the `item[col]` lookups of line 375); a
not-null violation on the primary key when the column list has no
`trade_date`; PostgreSQL's "ON CONFLICT DO UPDATE command cannot affect
row a second time" when two source rows share a key. -/
inductive UpsertError
  | valueError
  | keyError
  | nullPrimaryKey
  | cardinalityViolation
deriving Repr, DecidableEq

/-- The `COPY temp_upsert_data (columns) FROM STDIN` load of one row
(manager.py lines 371–375): the values `item[col] for col in columns`
in the column order of the first row; `none` embeds the `KeyError`
raised when the row lacks a column. -/
def extractRow (cols : List String) (row : Row) : Option Row :=
  match cols with
  | [] => some []
  | c :: cs =>
      match row.lookup c, extractRow cs row with
      | some v, some rest => some ((c, v) :: rest)
      | _, _ => none

/-- The staging loop `for item in data: copy.write_row(...)`
(manager.py lines 374–375) over the whole row list. -/
def extractAll (cols : List String) : List Row → Option (List Row)
  | [] => some []
  | r :: rs =>
      match extractRow cols r, extractAll cols rs with
      | some e, some es => some (e :: es)
      | _, _ => none

/-- The staging table is created `LIKE <target> INCLUDING DEFAULTS`
(manager.py lines 363–368), so the columns the `COPY` does not list are
filled from the target's defaults.  The rows the collector feeds in come
from `build_stock_data_dict` (helpers.py lines 35–66), which supplies
every `stock_hot` column **except** `created_at` and `updated_at`; those
two default to `CURRENT_TIMESTAMP`
(`_create_stock_hot_table_function`, manager.py lines 153–154), one
timestamp (`now`) per call's transaction.  `INSERT ... SELECT *` then
carries these defaulted values into the target. -/
def stageRow (now : Int) (r : Row) : Row :=
  r ++ [("created_at", now), ("updated_at", now)]

/-- The `BEFORE UPDATE` trigger `update_stock_hot_timestamp` installed
on every `stock_hot_*` table (`_create_stock_hot_table_function`,
manager.py lines 179–194): on every updated row it overwrites
`NEW.updated_at := CURRENT_TIMESTAMP`, whatever the `UPDATE` assigned. -/
def touchUpdatedAt (now : Int) (r : Row) : Row :=
  r.map (fun p => (p.1, if p.1 = "updated_at" then now else p.2))

/-- Projection of a row onto every column other than the
trigger-maintained `updated_at`. -/
def stripUpdatedAt (r : Row) : Row :=
  r.filter (fun p => ¬ p.1 = "updated_at")

/-- The `DO UPDATE SET f = EXCLUDED.f` clause (manager.py lines
378–382) composed with the `BEFORE UPDATE` trigger (lines 179–194): on
a conflicting key, the `update_fields` columns of the existing row take
the incoming (staged) row's value, every other column keeps its value —
except `updated_at`, which the trigger finally sets to the call's
`CURRENT_TIMESTAMP`, overriding any `SET` on it. -/
def mergeRow (old incoming : Row) (updateFields : List String)
    (now : Int) : Row :=
  old.map (fun p =>
    (p.1,
     if p.1 = "updated_at" then now
     else if p.1 ∈ updateFields then (incoming.lookup p.1).getD p.2
     else p.2))

/-- The effect of `INSERT ... ON CONFLICT (trade_date) DO UPDATE`
(manager.py lines 385–394) for a single staged row: update (and
trigger-touch) the row with the same primary key if one exists, insert
the staged row — default-filled timestamps included — otherwise. -/
def upsertOne (updateFields : List String) (now : Int) (t : Table)
    (e : Row) : Table :=
  if t.any (fun r => keyOf r = keyOf e) then
    t.map (fun r =>
      if keyOf r = keyOf e then mergeRow r e updateFields now else r)
  else
    t ++ [e]

/-- `bulk_upsert(table_name, data, update_fields)` (manager.py lines
347–401), one call = one transaction with timestamp `now`: reject an
empty `update_fields` (`ValueError`, line 350); return 0 on empty
`data` (line 354); otherwise stage every row (`COPY` with the first
row's columns into the `LIKE ... INCLUDING DEFAULTS` temp table, which
default-fills `created_at`/`updated_at` with `now`), merge the staged
rows into the table with `INSERT ... ON CONFLICT (trade_date) DO
UPDATE` (firing the `BEFORE UPDATE` trigger on every updated row), and
return `len(data)` (line 397).  Any error rolls the transaction back,
leaving the table unchanged (lines 398–401), which the `Except` error
result embeds. -/
def bulkUpsert (now : Int) (t : Table) (data : List Row)
    (updateFields : List String) : Except UpsertError (Table × Nat) :=
  if updateFields.isEmpty then .error .valueError
  else
    match data with
    | [] => .ok (t, 0)
    | r0 :: _ =>
        let cols := r0.map Prod.fst
        match extractAll cols data with
        | none => .error .keyError
        | some loaded =>
            let staged := loaded.map (stageRow now)
            if "trade_date" ∈ cols then
              if (staged.map keyOf).Nodup then
                .ok (staged.foldl (upsertOne updateFields now) t,
                  data.length)
              else .error .cardinalityViolation
            else .error .nullPrimaryKey

/-- The table state after a successful `bulk_upsert` call at timestamp
`now` (the committed transaction's effect); on an error result, the
rollback leaves the table unchanged. -/
def upsertResultTable (now : Int) (t : Table) (data : List Row)
    (updateFields : List String) : Table :=
  match bulkUpsert now t data updateFields with
  | .ok (t1, _) => t1
  | .error _ => t

/-! ## Trading-calendar lookups (`a_stock.py` lines 236–265)

The `trading_calendar` table (`TradingCalendarSchema`, models.py lines
57–71) stores one row per calendar date — trading days and non-trading
days alike, the latter written by
`TradingDayChecker._update_from_exchange` / `_update_from_ak`
(checker.py) with `is_trading_day = False` and a holiday label. -/

/-- One `trading_calendar` row; dates in `yyyymmdd` form. -/
structure CalRow where
  trade_date : Nat
  is_trading_day : Bool
  holiday_name : Option String
deriving Repr, DecidableEq

/-- The local calendar table. -/
abbrev Calendar := List CalRow

/-- The `is_trading_day` flag the calendar records for a date, if any. -/
def calFlag (cal : Calendar) (d : Nat) : Option Bool :=
  (cal.find? (fun r => r.trade_date = d)).map (fun r => r.is_trading_day)

/-- `get_previous_trading_day` (a_stock.py lines 236–265): query
`trading_calendar` with condition `trade_date < date`, `ORDER BY
trade_date DESC LIMIT 1` — i.e. the greatest stored date strictly below
the query date; the condition mentions no `is_trading_day` filter.  When
the local table has no matching row, fall back to the external akshare
calendar (embedded as the opaque `akFallback` answer). -/
def getPreviousTradingDay (cal : Calendar) (akFallback : Option Nat)
    (d : Nat) : Option Nat :=
  match ((cal.filter (fun r => r.trade_date < d)).map
      (fun r => r.trade_date)).max? with
  | some m => some m
  | none => akFallback

/-! ## The `retry` decorator (`decorators.py` lines 22–56) -/

/-- What one invocation of the wrapped operation does: return a value or
raise an exception (exceptions carry an identifying tag). -/
inductive Attempt (α : Type) where
  | ok (a : α)
  | exn (e : String)
deriving Repr, DecidableEq

/-- What a call of the wrapped function does overall: return a value,
raise an exception, or raise the `raise cast(Exception, None)` of line
54 when the loop body never ran (`max_retries = 0`). -/
inductive RetryResult (α : Type) where
  | ok (a : α)
  | raised (e : String)
  | raisedNone
deriving Repr, DecidableEq

/-- The `for attempt in range(1, max_retries + 1)` loop of `retry`
(decorators.py lines 43–54), with the wrapped operation embedded as a
function `op` from the attempt number to that invocation's behaviour and
the `except exceptions` clause as the predicate `retryable`.  Returns
the call's result together with the number of times the operation was
invoked.  An attempt that raises a retryable error records it as
`last_exception` and continues (the `time.sleep` of line 53 has no
further effect); a non-retryable error escapes the `except` clause at
once; an exhausted loop re-raises the recorded error. -/
def retryGo (op : Nat → Attempt α) (retryable : String → Bool) :
    Nat → Nat → Option String → RetryResult α × Nat
  | _, 0, last =>
      (match last with
       | some e => .raised e
       | none => .raisedNone, 0)
  | attempt, fuel + 1, _ =>
      match op attempt with
      | .ok a => (.ok a, 1)
      | .exn e =>
          if retryable e then
            let r := retryGo op retryable (attempt + 1) fuel (some e)
            (r.1, r.2 + 1)
          else (.raised e, 1)

/-- A call of a function wrapped by `retry(max_retries, ...)`:
attempts are numbered from 1 and `last_exception` starts as `None`. -/
def retryCall (maxRetries : Nat) (retryable : String → Bool)
    (op : Nat → Attempt α) : RetryResult α × Nat :=
  retryGo op retryable 1 maxRetries none

/-! ## Identifier validation (`helpers.py` line 31, `manager.py` line 281)

Both validators are built on Python's `str.isalnum`, which is
**Unicode-aware**: it is true of a non-empty string all of whose
characters are Unicode letters or numeric characters.  We embed the
character classes this development evaluates exactly: the ASCII
alphanumerics, the fullwidth digits U+FF10–U+FF19 (category Nd) and the
CJK unified ideographs U+4E00–U+9FFF (category Lo) — all of which
Python's `str.isalnum` classifies as alphanumeric. -/

/-- Python's per-character alphanumeric test, on the character classes
listed above. -/
def pyCharIsAlnum (c : Char) : Bool :=
  let n := c.toNat
  (48 ≤ n && n ≤ 57) || (65 ≤ n && n ≤ 90) || (97 ≤ n && n ≤ 122) ||
    (0xFF10 ≤ n && n ≤ 0xFF19) || (0x4E00 ≤ n && n ≤ 0x9FFF)

/-- Python `str.isalnum`: non-empty, and every character alphanumeric. -/
def pyIsAlnum (s : String) : Bool :=
  !s.data.isEmpty && s.data.all pyCharIsAlnum

/-- `validate_symbol` (helpers.py lines 31–33):
`symbol.isalnum() and len(symbol) == 6`. -/
def validateSymbol (s : String) : Bool :=
  pyIsAlnum s && s.data.length == 6

/-- The `InvalidSymbolError` of `database/exceptions.py`. -/
inductive IdentifierError
  | invalidSymbol
deriving Repr, DecidableEq

/-- `get_stock_table_name` (manager.py lines 281–285): reject a symbol
failing `symbol.isalnum()` with `InvalidSymbolError`, otherwise return
the table name with the fixed prefix. -/
def getStockTableName (s : String) : Except IdentifierError String :=
  if pyIsAlnum s then .ok ("stock_hot_" ++ s) else .error .invalidSymbol

/-- Modelled from the spec (for comparison only): a token matching the
spec's pattern `^[A-Za-z0-9]` repeated 1..N — non-empty and every
character an **ASCII** letter or digit. -/
def specAsciiAlnumToken (s : String) : Bool :=
  !s.data.isEmpty && s.data.all (fun c =>
    let n := c.toNat
    (48 ≤ n && n ≤ 57) || (65 ≤ n && n ≤ 90) || (97 ≤ n && n ≤ 122))

/-- The strings on which Python and the spec's ASCII regex could ever be
compared character class by character class: pure ASCII strings. -/
def isAsciiString (s : String) : Bool :=
  s.data.all (fun c => c.toNat ≤ 127)

/-! ## Connection handling of the `execute` method
(`manager.py` lines 35–47, 200–255)

`__init__` (line 47) sets `self.connection = None` and no method ever
assigns it again; `execute` (line 237) opens a cursor on
`self.connection`, so every call raises `AttributeError`
(`'NoneType' object has no attribute 'cursor'`) without ever touching
the connection pool.  Only `bulk_insert` (line 314) and `bulk_upsert`
(line 359) acquire a pooled connection, through the
`_get_connection` context manager (lines 200–212). -/

/-- A live database connection: the statements already committed, and
the statements executed in the still-open transaction. -/
structure PgConnection where
  committed : List String
  pending : List String
deriving Repr, DecidableEq

/-- `execute(query, params, fetch=True)` run on a live connection
(manager.py lines 236–250), successful-statement path: the cursor
executes the statement inside the open transaction; then the
`if not fetch` branch (lines 240–244) — and only that branch — calls
`self.connection.commit()`.  With `fetch=True` the statement's effects
stay uncommitted on the connection. -/
def executeOn (conn : PgConnection) (query : String) (fetch : Bool) :
    PgConnection :=
  let run := { conn with pending := conn.pending ++ [query] }
  if fetch then run
  else { committed := run.committed ++ run.pending, pending := [] }

/-- `save_task_progress` (manager.py lines 565–578): a single
`execute` of the upsert statement, with `fetch` left at its default
`True`. -/
def saveTaskProgressOn (conn : PgConnection) (taskId blob : String) :
    PgConnection :=
  executeOn conn
    ("INSERT INTO task_progress VALUES " ++ taskId ++ " " ++ blob ++
      " ON CONFLICT DO UPDATE SET progress_data = EXCLUDED.progress_data")
    true

/-- `delete_task_progress` (manager.py lines 592–599): a single
`execute` of the delete statement, with `fetch` left at its default
`True`. -/
def deleteTaskProgressOn (conn : PgConnection) (taskId : String) :
    PgConnection :=
  executeOn conn ("DELETE FROM task_progress WHERE task_id = " ++ taskId)
    true

/-- The outcome of a manager method call, as Python sees it. -/
inductive PyOutcome (α : Type) where
  | ok (a : α)
  | attributeError
deriving Repr, DecidableEq

/-- The manager's `self.connection` attribute: set to `None` in
`__init__` (manager.py line 47) and never assigned anywhere else. -/
def initManagerConnection : Option PgConnection := none

/-- `execute` as dispatched on `self.connection` (manager.py line 237):
`self.connection.cursor()` on `None` raises `AttributeError` (and the
`self.connection.rollback()` of the handler, line 253, fails the same
way).  The second component counts `pool.getconn()` acquisitions
performed by the call: `execute` contains none on any path. -/
def executeManager (connAttr : Option PgConnection) (query : String)
    (fetch : Bool) : PyOutcome PgConnection × Nat :=
  match connAttr with
  | none => (.attributeError, 0)
  | some c => (.ok (executeOn c query fetch), 0)

/-- The Storage Engine operations named by the spec. -/
inductive DbOp
  | execute
  | query
  | delete
  | bulkInsert
  | bulkUpsert
  | saveTaskProgress
  | loadTaskProgress
  | deleteTaskProgress
deriving Repr, DecidableEq

/-- Whether the method's body acquires a pooled connection (uses
`with self._get_connection()`): true only of `bulk_insert`
(manager.py line 314) and `bulk_upsert` (line 359); `query`, `delete`
and the three task-progress methods all go through `execute`, which
runs on `self.connection` (line 237). -/
def usesPooledConnection : DbOp → Bool
  | .bulkInsert => true
  | .bulkUpsert => true
  | _ => false

/-! ## Theorems -/

/-- Claim C5: for universe `["600000", "000001"]` with the provider
returning 2 rows for `600000` and an empty result (no exception) for
`000001`, one run of `fetch_and_save_all` with a task id returns stats
`total = 2, success = 1, failed = 1, processed = 2, records = 2`, and
the checkpoint for the task id is deleted — the resulting store is empty
and the task id loads no progress. -/
theorem scenario_mixed_result_run :
    fetchAndSaveAll ["600000", "000001"]
        (fun s => if s = "600000" then some 2 else some 0) 50 (some "task1")
        false [] =
      ⟨⟨2, 1, 1, 2, 2⟩, [], ["600000", "000001"], ["600000", "000001"]⟩ ∧
    loadProgress
        (fetchAndSaveAll ["600000", "000001"]
          (fun s => if s = "600000" then some 2 else some 0) 50 (some "task1")
          false []).store "task1" = none := by
  constructor
  · decide
  · decide

/-- Claim C6 (code bug): with local calendar entries for 2023-01-03
(trading) and 2023-01-02 (non-trading, "holiday"),
`get_previous_trading_day("2023-01-03")` returns 2023-01-02 — a date the
calendar records as **non**-trading — because the `trade_date < date
ORDER BY trade_date DESC LIMIT 1` query never filters on
`is_trading_day`.  This contradicts the function's own contract of
returning the previous *trading* day. -/
theorem previousTradingDay_returns_recorded_nontrading_day :
    getPreviousTradingDay
        [⟨20230103, true, none⟩, ⟨20230102, false, some "holiday"⟩] none
        20230103 = some 20230102 ∧
    calFlag [⟨20230103, true, none⟩, ⟨20230102, false, some "holiday"⟩]
        20230102 = some false ∧
    calFlag [⟨20230103, true, none⟩, ⟨20230102, false, some "holiday"⟩]
        20230103 = some true ∧
    20230102 < 20230103 := by
  refine ⟨by decide, by decide, by decide, by decide⟩

/-- Claim C4 (code bug): `execute` — and with it `query`, `delete` and
the three task-progress methods, which all funnel through it — runs on
`self.connection`, an attribute that `__init__` sets to `None` and that
is never acquired from the pool; every such call raises
`AttributeError` and performs zero pool acquisitions.  Only
`bulk_insert` and `bulk_upsert` acquire a pooled connection via
`_get_connection`, so the spec's "every operation acquires one pooled
connection" fails for the program as written. -/
theorem execute_runs_on_no_pooled_connection :
    (∀ q fetch, executeManager initManagerConnection q fetch =
        (.attributeError, 0)) ∧
    usesPooledConnection .execute = false ∧
    usesPooledConnection .query = false ∧
    usesPooledConnection .delete = false ∧
    usesPooledConnection .saveTaskProgress = false ∧
    usesPooledConnection .loadTaskProgress = false ∧
    usesPooledConnection .deleteTaskProgress = false ∧
    usesPooledConnection .bulkInsert = true ∧
    usesPooledConnection .bulkUpsert = true :=
  ⟨fun _ _ => rfl, rfl, rfl, rfl, rfl, rfl, rfl, rfl, rfl⟩

/-- Claim C10: the base `execute` commits only in its `fetch=False`
branch.  A call with `fetch=True` appends its statement to the open
transaction but leaves the committed state untouched, and
`save_task_progress` and `delete_task_progress` both call `execute`
with the default `fetch=True`, so the checkpoint upsert and delete they
issue never change the committed state of their connection. -/
theorem execute_commits_only_on_fetch_false (conn : PgConnection)
    (q tid blob : String) :
    (executeOn conn q true).committed = conn.committed ∧
    (executeOn conn q true).pending = conn.pending ++ [q] ∧
    (executeOn conn q false).committed =
      conn.committed ++ (conn.pending ++ [q]) ∧
    (executeOn conn q false).pending = [] ∧
    (saveTaskProgressOn conn tid blob).committed = conn.committed ∧
    (deleteTaskProgressOn conn tid).committed = conn.committed :=
  ⟨rfl, rfl, rfl, rfl, rfl, rfl⟩

/-- Claim C8 (counterexample): Python's `str.isalnum` is Unicode-aware,
so the validators accept strings outside `^[A-Za-z0-9]+$`: the six
fullwidth digits `"６００００１"` pass `validate_symbol`, and the CJK
string `"股票"` passes `get_stock_table_name`, while neither matches the
spec's ASCII-only pattern. -/
theorem validator_accepts_fullwidth_digits :
    validateSymbol "６００００１" = true ∧
    specAsciiAlnumToken "６００００１" = false ∧
    getStockTableName "股票" = .ok "stock_hot_股票" ∧
    specAsciiAlnumToken "股票" = false := by
  refine ⟨by decide, by decide, by rfl, by decide⟩

/-- On ASCII characters, Python's Unicode alphanumeric test coincides
with the `[A-Za-z0-9]` character class. -/
theorem all_pyCharIsAlnum_ascii (l : List Char)
    (h : ∀ c ∈ l, c.toNat ≤ 127) :
    l.all pyCharIsAlnum = l.all (fun c =>
      let n := c.toNat
      (48 ≤ n && n ≤ 57) || (65 ≤ n && n ≤ 90) || (97 ≤ n && n ≤ 122)) := by
  induction l with
  | nil => rfl
  | cons c cs ih =>
      simp only [List.all_cons]
      rw [ih (fun c hc => h c (List.mem_cons_of_mem _ hc))]
      have hc := h c (List.mem_cons_self _ _)
      have h1 : ¬ (65296 ≤ c.toNat) := by omega
      have h2 : ¬ (19968 ≤ c.toNat) := by omega
      simp [pyCharIsAlnum, h1, h2]

/-- On ASCII strings, Python `str.isalnum` agrees with the spec's
ASCII-token pattern. -/
theorem pyIsAlnum_eq_spec_on_ascii (s : String) (h : isAsciiString s = true) :
    pyIsAlnum s = specAsciiAlnumToken s := by
  unfold isAsciiString at h
  unfold pyIsAlnum specAsciiAlnumToken
  rw [all_pyCharIsAlnum_ascii]
  intro c hc
  have := List.all_eq_true.mp h c hc
  simpa using this

/-- Claim C8 (amended): acceptance is Python's Unicode `str.isalnum`
(non-empty, all characters Unicode-alphanumeric) plus, for
`validate_symbol`, a length of exactly 6 code points; restricted to
ASCII input this coincides with the spec's `^[A-Za-z0-9]` token pattern
(with the length-6 constraint for symbols). -/
theorem validators_match_regex_on_ascii (s : String)
    (h : isAsciiString s = true) :
    validateSymbol s = (specAsciiAlnumToken s && s.data.length == 6) ∧
    getStockTableName s =
      (if specAsciiAlnumToken s = true then .ok ("stock_hot_" ++ s)
       else .error .invalidSymbol) := by
  have he := pyIsAlnum_eq_spec_on_ascii s h
  constructor
  · unfold validateSymbol
    rw [he]
  · unfold getStockTableName
    rw [he]

/-- Witness for C8's amended theorem at `"600000"`. -/
theorem validators_match_regex_on_ascii_witness :
    validateSymbol "600000" =
      (specAsciiAlnumToken "600000" && ("600000").data.length == 6) ∧
    getStockTableName "600000" =
      (if specAsciiAlnumToken "600000" = true
       then .ok ("stock_hot_" ++ "600000") else .error .invalidSymbol) :=
  validators_match_regex_on_ascii "600000" (by decide)

/-- A saved progress blob is what a subsequent load for the same task id
returns (the checkpoint upsert is keyed by `task_id`). -/
theorem lookup_saveProgress_self (store : CkptStore) (t : String) (p : Progress) :
    loadProgress (saveProgress store t p) t = some p := by
  unfold saveProgress
  by_cases h : store.any (fun q => q.1 = t)
  · rw [if_pos h]
    induction store with
    | nil => simp at h
    | cons q rest ih =>
        obtain ⟨k, v⟩ := q
        by_cases hq : k = t
        · rw [List.map_cons, if_pos hq]
          simp [loadProgress]
        · have h' : (rest.any fun q => decide (q.1 = t)) = true := by
            simp only [List.any_cons] at h
            rcases Bool.or_eq_true_iff.mp h with h0 | h0
            · exact absurd (of_decide_eq_true h0) hq
            · exact h0
          rw [List.map_cons, if_neg hq, loadProgress, if_neg hq]
          exact ih h'
  · rw [if_neg h]
    rw [List.any_eq_true] at h
    push_neg at h
    induction store with
    | nil => simp [loadProgress]
    | cons q rest ih =>
        obtain ⟨k, v⟩ := q
        have hk : ¬ k = t := by
          have := h (k, v) (List.mem_cons_self _ _)
          simpa using this
        rw [List.cons_append, loadProgress, if_neg hk]
        exact ih (fun q hq => h q (List.mem_cons_of_mem _ hq))

/-- A loop iteration on an already-processed symbol only increments the
`processed` counter (a_stock.py lines 345–347). -/
theorem stepStock_skip (fetch : Fetcher) (tid : Option String) (bs i : Nat)
    (st : LoopState) (s : String) (hs : s ∈ st.processed) :
    stepStock fetch tid false bs st i s =
      { st with stats := { st.stats with processed := st.stats.processed + 1 } } := by
  unfold stepStock
  rw [if_pos ⟨hs, by simp⟩]

/-- A loop iteration whose fetch raises only increments `failed`
(a_stock.py lines 372–375): no symbol added, no checkpoint written. -/
theorem stepStock_exn (fetch : Fetcher) (tid : Option String) (bs i : Nat)
    (st : LoopState) (s : String) (hns : s ∉ st.processed)
    (hf : fetch s = none) :
    stepStock fetch tid false bs st i s =
      { st with fetched := st.fetched ++ [s],
                stats := { st.stats with failed := st.stats.failed + 1 } } := by
  unfold stepStock
  rw [if_neg (fun hcon => hns hcon.1), hf]

/-- A loop iteration whose fetch completes (with or without data) marks
the symbol processed, increments `processed` and writes the checkpoint
(a_stock.py lines 349–367). -/
theorem stepStock_fresh (fetch : Fetcher) (t : String) (ht : t.isEmpty = false)
    (bs : Nat) (st : LoopState) (i : Nat) (s : String) (n : Nat)
    (hns : s ∉ st.processed) (hf : fetch s = some n) :
    (stepStock fetch (some t) false bs st i s).processed = st.processed ++ [s] ∧
    (stepStock fetch (some t) false bs st i s).fetched = st.fetched ++ [s] ∧
    (stepStock fetch (some t) false bs st i s).stats.processed =
      st.stats.processed + 1 ∧
    (stepStock fetch (some t) false bs st i s).store =
      saveProgress st.store t
        ⟨(stepStock fetch (some t) false bs st i s).stats,
          st.processed ++ [s], i - i % bs⟩ := by
  unfold stepStock
  rw [if_neg (fun hcon => hns hcon.1), hf]
  simp [addProcessed, hns, ht, apply_ite]

/-- The loop over a concatenation is the composition of the loops. -/
theorem runStocks_append (fetch : Fetcher) (tid : Option String) (fr : Bool)
    (bs : Nat) (L1 L2 : List String) :
    ∀ (st : LoopState) (i : Nat),
    runStocks fetch tid fr bs st i (L1 ++ L2) =
      runStocks fetch tid fr bs (runStocks fetch tid fr bs st i L1)
        (i + L1.length) L2 := by
  induction L1 with
  | nil => intro st i; simp [runStocks]
  | cons s rest ih =>
      intro st i
      rw [List.cons_append, runStocks, runStocks, ih]
      have : i + 1 + rest.length = i + (rest.length + 1) := by omega
      rw [this]
      rfl

/-- The loop over a list of already-processed symbols only adds the
list's length to the `processed` counter. -/
theorem runStocks_skip (fetch : Fetcher) (tid : Option String) (bs : Nat)
    (L : List String) :
    ∀ (st : LoopState) (i : Nat), (∀ s ∈ L, s ∈ st.processed) →
    runStocks fetch tid false bs st i L =
      { st with stats :=
          { st.stats with processed := st.stats.processed + L.length } } := by
  induction L with
  | nil => intro st i _; simp [runStocks]
  | cons s rest ih =>
      intro st i h
      rw [runStocks, stepStock_skip fetch tid bs i st s (h s (by simp))]
      rw [ih { st with stats := { st.stats with processed := st.stats.processed + 1 } }
        (i + 1) (fun x hx => h x (List.mem_cons_of_mem _ hx))]
      simp only [List.length_cons]
      congr 2
      omega

/-- The loop over a duplicate-free list of fresh symbols, all of whose
fetches complete: every symbol is fetched and marked processed in list
order, the `processed` counter grows by the list's length, and (for a
non-empty list) the stored checkpoint ends up holding the final stats
and the final processed set. -/
theorem runStocks_fresh (fetch : Fetcher) (t : String) (ht : t.isEmpty = false)
    (bs : Nat) (L : List String) :
    ∀ (st : LoopState) (i : Nat), L.Nodup →
    (∀ s ∈ L, s ∉ st.processed) →
    (∀ s ∈ L, fetch s ≠ none) →
    (runStocks fetch (some t) false bs st i L).processed = st.processed ++ L ∧
    (runStocks fetch (some t) false bs st i L).fetched = st.fetched ++ L ∧
    (runStocks fetch (some t) false bs st i L).stats.processed =
      st.stats.processed + L.length ∧
    (L ≠ [] → ∃ b, loadProgress (runStocks fetch (some t) false bs st i L).store t =
        some ⟨(runStocks fetch (some t) false bs st i L).stats,
              st.processed ++ L, b⟩) := by
  induction L with
  | nil =>
      intro st i _ _ _
      exact ⟨by simp [runStocks], by simp [runStocks], by simp [runStocks],
        fun hne => absurd rfl hne⟩
  | cons s rest ih =>
      intro st i hnd hdis hok
      have hsome : ∃ n, fetch s = some n := by
        cases hfs : fetch s with
        | none => exact absurd hfs (hok s (by simp))
        | some n => exact ⟨n, rfl⟩
      obtain ⟨n, hn⟩ := hsome
      have hns : s ∉ st.processed := hdis s (by simp)
      obtain ⟨hp, hfe, hsp, hstore⟩ := stepStock_fresh fetch t ht bs st i s n hns hn
      have hnd' : rest.Nodup := (List.nodup_cons.mp hnd).2
      have hsne : s ∉ rest := (List.nodup_cons.mp hnd).1
      rw [runStocks]
      have hdis' : ∀ x ∈ rest,
          x ∉ (stepStock fetch (some t) false bs st i s).processed := by
        intro x hx
        rw [hp]
        simp only [List.mem_append, List.mem_singleton]
        rintro (hx1 | rfl)
        · exact hdis x (List.mem_cons_of_mem _ hx) hx1
        · exact hsne hx
      have hok' : ∀ x ∈ rest, fetch x ≠ none :=
        fun x hx => hok x (List.mem_cons_of_mem _ hx)
      obtain ⟨IH1, IH2, IH3, IH4⟩ :=
        ih (stepStock fetch (some t) false bs st i s) (i + 1) hnd' hdis' hok'
      refine ⟨?_, ?_, ?_, ?_⟩
      · rw [IH1, hp, List.append_assoc, List.singleton_append]
      · rw [IH2, hfe, List.append_assoc, List.singleton_append]
      · rw [IH3, hsp]
        simp only [List.length_cons]
        omega
      · intro _
        by_cases hre : rest = []
        · subst hre
          refine ⟨i - i % bs, ?_⟩
          simp only [runStocks]
          rw [hstore, lookup_saveProgress_self]
        · obtain ⟨b, hb⟩ := IH4 hre
          refine ⟨b, ?_⟩
          rw [hb, hp, List.append_assoc, List.singleton_append]

/-- Claim C3 (amended): for every entity visited by the orchestrator
loop (not skipped), if the fetch/persist completes — returning data or
an empty result — the symbol is added to `processed_symbols`,
`stats['processed']` is incremented, and the checkpoint for the task id
is persisted reflecting exactly that.  But if the fetch raises an
exception, only `stats['failed']` is incremented: the symbol is *not*
added to `processed_symbols`, no checkpoint is written, the state is
otherwise unchanged — so a transiently failing entity *is* retried on a
later resume. -/
theorem visited_entity_processed_iff_no_exception
    (fetch : Fetcher) (t : String) (bs i : Nat) (st : LoopState) (s : String)
    (ht : t.isEmpty = false) (hns : s ∉ st.processed) :
    (fetch s = none →
      stepStock fetch (some t) false bs st i s =
        { st with fetched := st.fetched ++ [s],
                  stats := { st.stats with failed := st.stats.failed + 1 } }) ∧
    (∀ n, fetch s = some n →
      (stepStock fetch (some t) false bs st i s).processed =
          st.processed ++ [s] ∧
      (stepStock fetch (some t) false bs st i s).stats.processed =
        st.stats.processed + 1 ∧
      loadProgress (stepStock fetch (some t) false bs st i s).store t =
        some ⟨(stepStock fetch (some t) false bs st i s).stats,
              st.processed ++ [s], i - i % bs⟩) :=
  ⟨fun hf => stepStock_exn fetch (some t) bs i st s hns hf,
   fun n hf => by
     obtain ⟨hp, _, hsp, hstore⟩ := stepStock_fresh fetch t ht bs st i s n hns hf
     exact ⟨hp, hsp, by rw [hstore, lookup_saveProgress_self]⟩⟩

/-- Witness for C3's amended theorem: a fresh symbol whose fetch returns
2 rows, on the initial loop state. -/
theorem visited_entity_processed_iff_no_exception_witness :
    ((fun _ => some 2 : Fetcher) "600000" = none →
      stepStock (fun _ => some 2) (some "t1") false 50
          ⟨[], ⟨1, 0, 0, 0, 0⟩, [], []⟩ 0 "600000" =
        { LoopState.mk [] ⟨1, 0, 0, 0, 0⟩ [] [] with
            fetched := [] ++ ["600000"],
            stats := { Stats.mk 1 0 0 0 0 with failed := 0 + 1 } }) ∧
    (∀ n, (fun _ => some 2 : Fetcher) "600000" = some n →
      (stepStock (fun _ => some 2) (some "t1") false 50
          ⟨[], ⟨1, 0, 0, 0, 0⟩, [], []⟩ 0 "600000").processed =
        [] ++ ["600000"] ∧
      (stepStock (fun _ => some 2) (some "t1") false 50
          ⟨[], ⟨1, 0, 0, 0, 0⟩, [], []⟩ 0 "600000").stats.processed = 0 + 1 ∧
      loadProgress (stepStock (fun _ => some 2) (some "t1") false 50
          ⟨[], ⟨1, 0, 0, 0, 0⟩, [], []⟩ 0 "600000").store "t1" =
        some ⟨(stepStock (fun _ => some 2) (some "t1") false 50
                  ⟨[], ⟨1, 0, 0, 0, 0⟩, [], []⟩ 0 "600000").stats,
              [] ++ ["600000"], 0 - 0 % 50⟩) :=
  visited_entity_processed_iff_no_exception (fun _ => some 2) "t1" 50 0
    ⟨[], ⟨1, 0, 0, 0, 0⟩, [], []⟩ "600000" (by decide) (by decide)

/-- Characterization of an interrupted run and its resumption: the
interrupted run's processed set and fetch trace are the first `k`
symbols; the resumed run fetches exactly the remaining symbols, ends
with the whole universe processed, and its `processed` counter ends at
`|U| + k` (seeded with `k` from the checkpoint and incremented once per
skip and once per fresh symbol). -/
theorem resume_characterization (stocks : List String) (fetch1 fetch2 : Fetcher)
    (bs : Nat) (t : String) (store0 : CkptStore) (k : Nat)
    (ht : t.isEmpty = false)
    (hnd : stocks.Nodup)
    (hk : k ≤ stocks.length)
    (h0 : loadProgress store0 t = none)
    (hf1 : ∀ s ∈ stocks.take k, fetch1 s ≠ none)
    (hf2 : ∀ s ∈ stocks.drop k, fetch2 s ≠ none) :
    (interruptedRun stocks fetch1 bs (some t) store0 k).processed =
      stocks.take k ∧
    (interruptedRun stocks fetch1 bs (some t) store0 k).fetched =
      stocks.take k ∧
    (fetchAndSaveAll stocks fetch2 bs (some t) false
        (interruptedRun stocks fetch1 bs (some t) store0 k).store).fetched =
      stocks.drop k ∧
    (fetchAndSaveAll stocks fetch2 bs (some t) false
        (interruptedRun stocks fetch1 bs (some t) store0 k).store).processed =
      stocks ∧
    (fetchAndSaveAll stocks fetch2 bs (some t) false
        (interruptedRun stocks fetch1 bs (some t) store0 k).store).stats.processed =
      stocks.length + k := by
  have htake_nd : (stocks.take k).Nodup := hnd.sublist (List.take_sublist k stocks)
  have hdrop_nd : (stocks.drop k).Nodup := hnd.sublist (List.drop_sublist k stocks)
  obtain ⟨hp1, hfe1, hsp1, hck1⟩ :=
    runStocks_fresh fetch1 t ht bs (stocks.take k)
      ⟨[], ⟨stocks.length, 0, 0, 0, 0⟩, store0, []⟩ 0 htake_nd
      (fun s _ => by simp) hf1
  have hIR : interruptedRun stocks fetch1 bs (some t) store0 k =
      runStocks fetch1 (some t) false bs
        ⟨[], ⟨stocks.length, 0, 0, 0, 0⟩, store0, []⟩ 0 (stocks.take k) := rfl
  rw [hIR] at *
  set st1 := runStocks fetch1 (some t) false bs
    ⟨[], ⟨stocks.length, 0, 0, 0, 0⟩, store0, []⟩ 0 (stocks.take k) with hst1def
  simp only [List.nil_append] at hp1 hfe1
  refine ⟨hp1, hfe1, ?_⟩
  -- characterize the init state of the resumed run
  have hinit : ∃ st0 : LoopState,
      fetchAndSaveAll stocks fetch2 bs (some t) false st1.store =
        ⟨(runStocks fetch2 (some t) false bs st0 0 stocks).stats,
         deleteProgress (runStocks fetch2 (some t) false bs st0 0 stocks).store t,
         (runStocks fetch2 (some t) false bs st0 0 stocks).fetched,
         (runStocks fetch2 (some t) false bs st0 0 stocks).processed⟩ ∧
      st0.processed = stocks.take k ∧
      st0.stats.processed = k ∧
      st0.fetched = [] := by
    by_cases htk : stocks.take k = []
    · have hk0 : k = 0 := by
        rcases List.take_eq_nil_iff.mp htk with h | h
        · exact h
        · rw [h] at hk; simpa using hk
      have hst1 : st1 = ⟨[], ⟨stocks.length, 0, 0, 0, 0⟩, store0, []⟩ := by
        rw [hst1def, htk]; rfl
      refine ⟨⟨[], ⟨stocks.length, 0, 0, 0, 0⟩, store0, []⟩, ?_, ?_, ?_, rfl⟩
      · unfold fetchAndSaveAll
        rw [hst1]
        simp only [ht, Bool.false_eq_true, if_false, h0]
      · rw [htk]
      · rw [hk0]
    · obtain ⟨b, hck⟩ := hck1 htk
      refine ⟨⟨stocks.take k, st1.stats, st1.store, []⟩, ?_, rfl, ?_, rfl⟩
      · unfold fetchAndSaveAll
        simp only [ht, Bool.false_eq_true, if_false]
        rw [hck]
        simp only [List.nil_append]
      · rw [hsp1]
        simp [List.length_take, Nat.min_eq_left hk]
  obtain ⟨st0, hrun2, hst0p, hst0sp, hst0f⟩ := hinit
  rw [hrun2]
  -- split the resumed loop into the skipped prefix and the fresh suffix
  have hsplit : runStocks fetch2 (some t) false bs st0 0 stocks =
      runStocks fetch2 (some t) false bs
        (runStocks fetch2 (some t) false bs st0 0 (stocks.take k))
        ((stocks.take k).length) (stocks.drop k) := by
    conv_lhs => rw [← List.take_append_drop k stocks]
    rw [runStocks_append]
    simp
  have hmid : runStocks fetch2 (some t) false bs st0 0 (stocks.take k) =
      { st0 with stats :=
          { st0.stats with processed := st0.stats.processed + (stocks.take k).length } } := by
    apply runStocks_skip
    intro s hs
    rw [hst0p]
    exact hs
  obtain ⟨hfp, hff, hfsp, _⟩ :=
    runStocks_fresh fetch2 t ht bs (stocks.drop k)
      { st0 with stats :=
          { st0.stats with processed := st0.stats.processed + (stocks.take k).length } }
      ((stocks.take k).length) hdrop_nd
      (by
        intro s hs
        show s ∉ st0.processed
        rw [hst0p]
        exact fun hmem => List.disjoint_take_drop hnd (le_refl k) hmem hs)
      hf2
  rw [hsplit, hmid]
  refine ⟨?_, ?_, ?_⟩
  · rw [hff, hst0f]
    rfl
  · rw [hfp, hst0p, List.take_append_drop]
  · rw [hfsp]
    simp only [hst0sp, List.length_take, List.length_drop, Nat.min_eq_left hk]
    omega


/-- Claim C1: resume correctness.  If a run over a duplicate-free
universe with a task id is interrupted after exactly `k` entities were
marked processed (all fetches completing), a restarted run with the same
task id and `force_redo = False` fetches/persists only the remaining
`|U| - k` entities — the already-processed symbols are skipped — and the
interrupted run's processed set followed by the restarted run's fetched
set is exactly the universe, each symbol handled exactly once; the
restarted run ends with every universe symbol processed. -/
theorem resume_correctness (stocks : List String) (fetch1 fetch2 : Fetcher)
    (bs : Nat) (t : String) (store0 : CkptStore) (k : Nat)
    (ht : t.isEmpty = false)
    (hnd : stocks.Nodup)
    (hk : k ≤ stocks.length)
    (h0 : loadProgress store0 t = none)
    (hf1 : ∀ s ∈ stocks.take k, fetch1 s ≠ none)
    (hf2 : ∀ s ∈ stocks.drop k, fetch2 s ≠ none) :
    (interruptedRun stocks fetch1 bs (some t) store0 k).processed =
      stocks.take k ∧
    (interruptedRun stocks fetch1 bs (some t) store0 k).processed.length = k ∧
    (fetchAndSaveAll stocks fetch2 bs (some t) false
        (interruptedRun stocks fetch1 bs (some t) store0 k).store).fetched =
      stocks.drop k ∧
    (fetchAndSaveAll stocks fetch2 bs (some t) false
        (interruptedRun stocks fetch1 bs (some t) store0 k).store).fetched.length =
      stocks.length - k ∧
    (interruptedRun stocks fetch1 bs (some t) store0 k).processed ++
        (fetchAndSaveAll stocks fetch2 bs (some t) false
          (interruptedRun stocks fetch1 bs (some t) store0 k).store).fetched =
      stocks ∧
    ((interruptedRun stocks fetch1 bs (some t) store0 k).processed ++
        (fetchAndSaveAll stocks fetch2 bs (some t) false
          (interruptedRun stocks fetch1 bs (some t) store0 k).store).fetched).Nodup ∧
    (fetchAndSaveAll stocks fetch2 bs (some t) false
        (interruptedRun stocks fetch1 bs (some t) store0 k).store).processed =
      stocks := by
  obtain ⟨h1, h2, h3, h4, h5⟩ :=
    resume_characterization stocks fetch1 fetch2 bs t store0 k ht hnd hk h0 hf1 hf2
  refine ⟨h1, ?_, h3, ?_, ?_, ?_, h4⟩
  · rw [h1, List.length_take]
    omega
  · rw [h3, List.length_drop]
  · rw [h1, h3, List.take_append_drop]
  · rw [h1, h3, List.take_append_drop]
    exact hnd
  
/-- Witness for C1 at a three-symbol universe interrupted after one. -/
theorem resume_correctness_witness :
    (interruptedRun ["600000", "000001", "300001"] (fun _ => some 1) 50
        (some "t9") [] 1).processed = (["600000", "000001", "300001"]).take 1 ∧
    (interruptedRun ["600000", "000001", "300001"] (fun _ => some 1) 50
        (some "t9") [] 1).processed.length = 1 ∧
    (fetchAndSaveAll ["600000", "000001", "300001"] (fun _ => some 1) 50
        (some "t9") false
        (interruptedRun ["600000", "000001", "300001"] (fun _ => some 1) 50
          (some "t9") [] 1).store).fetched =
      (["600000", "000001", "300001"]).drop 1 ∧
    (fetchAndSaveAll ["600000", "000001", "300001"] (fun _ => some 1) 50
        (some "t9") false
        (interruptedRun ["600000", "000001", "300001"] (fun _ => some 1) 50
          (some "t9") [] 1).store).fetched.length =
      (["600000", "000001", "300001"] : List String).length - 1 ∧
    (interruptedRun ["600000", "000001", "300001"] (fun _ => some 1) 50
        (some "t9") [] 1).processed ++
      (fetchAndSaveAll ["600000", "000001", "300001"] (fun _ => some 1) 50
        (some "t9") false
        (interruptedRun ["600000", "000001", "300001"] (fun _ => some 1) 50
          (some "t9") [] 1).store).fetched =
      ["600000", "000001", "300001"] ∧
    ((interruptedRun ["600000", "000001", "300001"] (fun _ => some 1) 50
        (some "t9") [] 1).processed ++
      (fetchAndSaveAll ["600000", "000001", "300001"] (fun _ => some 1) 50
        (some "t9") false
        (interruptedRun ["600000", "000001", "300001"] (fun _ => some 1) 50
          (some "t9") [] 1).store).fetched).Nodup ∧
    (fetchAndSaveAll ["600000", "000001", "300001"] (fun _ => some 1) 50
        (some "t9") false
        (interruptedRun ["600000", "000001", "300001"] (fun _ => some 1) 50
          (some "t9") [] 1).store).processed =
      ["600000", "000001", "300001"] :=
  resume_correctness ["600000", "000001", "300001"] (fun _ => some 1)
    (fun _ => some 1) 50 "t9" [] 1 (by decide) (by decide) (by decide)
    (by decide) (by decide) (by decide)

/-- Claim C9: on a resumed run the `processed` counter double-counts the
resumed work — it is seeded with `k` from the checkpoint and every
skipped already-processed symbol increments it again, so the resumed
run ends with `processed = |U| + k` rather than `|U|`. -/
theorem resumed_run_double_counts_processed (stocks : List String)
    (fetch1 fetch2 : Fetcher) (bs : Nat) (t : String) (store0 : CkptStore)
    (k : Nat)
    (ht : t.isEmpty = false)
    (hnd : stocks.Nodup)
    (hk : k ≤ stocks.length)
    (h0 : loadProgress store0 t = none)
    (hf1 : ∀ s ∈ stocks.take k, fetch1 s ≠ none)
    (hf2 : ∀ s ∈ stocks.drop k, fetch2 s ≠ none) :
    (fetchAndSaveAll stocks fetch2 bs (some t) false
        (interruptedRun stocks fetch1 bs (some t) store0 k).store).stats.processed =
      stocks.length + k :=
  (resume_characterization stocks fetch1 fetch2 bs t store0 k
    ht hnd hk h0 hf1 hf2).2.2.2.2

/-- Witness for C9: universe of size 3 interrupted after 2; the resumed
run reports `processed = 5`, not 3. -/
theorem resumed_run_double_counts_processed_witness :
    (fetchAndSaveAll ["600000", "000001", "300001"] (fun _ => some 1) 50
        (some "t8") false
        (interruptedRun ["600000", "000001", "300001"] (fun _ => some 1) 50
          (some "t8") [] 2).store).stats.processed =
      (["600000", "000001", "300001"] : List String).length + 2 :=
  resumed_run_double_counts_processed ["600000", "000001", "300001"]
    (fun _ => some 1) (fun _ => some 1) 50 "t8" [] 2 (by decide) (by decide)
    (by decide) (by decide) (by decide) (by decide)

/-- The retry loop, when every attempt in its window raises a retryable
error, runs the whole window and re-raises the last error. -/
theorem retryGo_all_fail {α : Type} (op : Nat → Attempt α)
    (retryable : String → Bool) :
    ∀ (f a : Nat) (last : Option String), 1 ≤ f →
    (∀ i, a ≤ i → i < a + f → ∃ e, op i = .exn e ∧ retryable e = true) →
    ∀ e, op (a + f - 1) = .exn e →
    retryGo op retryable a f last = (.raised e, f) := by
  intro f
  induction f with
  | zero => intro a last h; exact absurd h (by omega)
  | succ f ih =>
      intro a last _ hall e he
      obtain ⟨e0, he0, hr0⟩ := hall a (le_refl a) (by omega)
      rw [retryGo, he0]
      simp only [hr0, if_true]
      by_cases hf : f = 0
      · subst hf
        have hee : e = e0 := by
          have h1 : a + 1 - 1 = a := by omega
          rw [h1, he0] at he
          injection he with h2
          exact h2.symm
        subst hee
        simp [retryGo]
      · have h1f : 1 ≤ f := by omega
        have hall2 : ∀ i, a + 1 ≤ i → i < (a + 1) + f →
            ∃ e, op i = .exn e ∧ retryable e = true :=
          fun i h1 h2 => hall i (by omega) (by omega)
        have he2 : op ((a + 1) + f - 1) = .exn e := by
          have h3 : (a + 1) + f - 1 = a + (f + 1) - 1 := by omega
          rw [h3]
          exact he
        rw [ih (a + 1) (some e0) h1f hall2 e he2]

/-- Claim C7: a wrapped operation that raises a retryable error on every
attempt is invoked exactly `max_retries` times and the call then raises
the last (original) error; an error outside the configured exception set
propagates on the first attempt, after exactly one invocation. -/
theorem retry_exhaustion_and_immediate_propagation {α : Type} (maxR : Nat)
    (retryable : String → Bool) (op : Nat → Attempt α) (hpos : 1 ≤ maxR) :
    ((∀ i, 1 ≤ i → i ≤ maxR → ∃ e, op i = .exn e ∧ retryable e = true) →
      ∀ e, op maxR = .exn e →
        retryCall maxR retryable op = (.raised e, maxR)) ∧
    (∀ e, op 1 = .exn e → retryable e = false →
      retryCall maxR retryable op = (.raised e, 1)) := by
  constructor
  · intro hall e he
    unfold retryCall
    have h1 : op (1 + maxR - 1) = .exn e := by
      have h2 : 1 + maxR - 1 = maxR := by omega
      rw [h2]
      exact he
    exact retryGo_all_fail op retryable maxR 1 none hpos
      (fun i hi1 hi2 => hall i hi1 (by omega)) e h1
  · intro e he hr
    unfold retryCall
    obtain ⟨m, rfl⟩ : ∃ m, maxR = m + 1 := ⟨maxR - 1, by omega⟩
    rw [retryGo, he]
    simp [hr]

/-- Witness for C7: three attempts, all raising a retryable error — the
operation runs exactly 3 times and the call raises that error. -/
theorem retry_exhaustion_witness :
    retryCall 3 (fun _ => true) (fun _ => (.exn "boom" : Attempt Nat)) =
      (.raised "boom", 3) :=
  (retry_exhaustion_and_immediate_propagation 3 (fun _ => true)
      (fun _ => .exn "boom") (by decide)).1
    (fun i h1 h2 => ⟨"boom", rfl, rfl⟩) "boom" rfl

/-- Claim C3 (counterexample): an entity whose fetch raises an exception
is **not** marked processed.  With universe `["600000"]` and a provider
that always raises, the run ends with `failed = 1` but `processed = 0`,
an empty `processed_symbols`, and no checkpoint; a later resume with the
same task id fetches the symbol again — so a transient failure *is*
retried, contrary to the claim. -/
theorem exception_leaves_symbol_unprocessed :
    fetchAndSaveAll ["600000"] (fun _ => none) 50 (some "t1") false [] =
      ⟨⟨1, 0, 1, 0, 0⟩, [], ["600000"], []⟩ ∧
    (fetchAndSaveAll ["600000"] (fun _ => none) 50 (some "t1") false
        (fetchAndSaveAll ["600000"] (fun _ => none) 50 (some "t1") false
          []).store).fetched = ["600000"] := by
  constructor
  · decide
  · decide

/-- In a Python dict (duplicate-free field names), looking up the name
of an entry returns that entry's value. -/
theorem lookup_of_mem_of_nodup (r : Row) (c : String) (v : Int)
    (hnd : (r.map Prod.fst).Nodup) (hm : (c, v) ∈ r) : r.lookup c = some v := by
  induction r with
  | nil => simp at hm
  | cons p rest ih =>
      obtain ⟨c0, v0⟩ := p
      rcases List.mem_cons.mp hm with h | h
      · injection h with h1 h2
        subst h1
        subst h2
        simp [List.lookup]
      · have hc : c ≠ c0 := by
          rintro rfl
          exact (List.nodup_cons.mp (by simpa using hnd)).1
            (List.mem_map_of_mem Prod.fst h)
        have hnd' : (rest.map Prod.fst).Nodup :=
          (List.nodup_cons.mp (by simpa using hnd)).2
        have hb : (c == c0) = false := by simp [hc]
        simpa [List.lookup, hb] using ih hnd' h

/-- Staging a row over columns whose lookups all succeed reproduces the
looked-up entries in column order. -/
theorem extractRow_of_lookup (r : Row) : ∀ (l : Row),
    (∀ p ∈ l, r.lookup p.1 = some p.2) →
    extractRow (l.map Prod.fst) r = some l := by
  intro l
  induction l with
  | nil => intro _; rfl
  | cons p rest ih =>
      intro h
      obtain ⟨c, v⟩ := p
      rw [List.map_cons, extractRow, h (c, v) (List.mem_cons_self _ _),
        ih (fun q hq => h q (List.mem_cons_of_mem _ hq))]

/-- Staging a dict over its own column list reproduces the dict. -/
theorem extractRow_self (r : Row) (hnd : (r.map Prod.fst).Nodup) :
    extractRow (r.map Prod.fst) r = some r :=
  extractRow_of_lookup r r (fun p hp =>
    lookup_of_mem_of_nodup r p.1 p.2 hnd hp)

/-- When every row has exactly the first row's columns, the `COPY`
staging loads the data unchanged. -/
theorem extractAll_self (cols : List String) (hnd : cols.Nodup) :
    ∀ (data : List Row), (∀ r ∈ data, r.map Prod.fst = cols) →
    extractAll cols data = some data := by
  intro data
  induction data with
  | nil => intro _; rfl
  | cons r rs ih =>
      intro h
      have hr : r.map Prod.fst = cols := h r (List.mem_cons_self _ _)
      have : extractRow cols r = some r := by
        rw [← hr]
        exact extractRow_self r (hr ▸ hnd)
      rw [extractAll, this, ih (fun q hq => h q (List.mem_cons_of_mem _ hq))]

/-- Column lookup through a value-rewriting map that preserves field
names (the common shape of the merge and of the trigger). -/
theorem lookup_map_value (g : String → Int → Int) (r : Row) (c : String) :
    (r.map (fun p => (p.1, g p.1 p.2))).lookup c = (r.lookup c).map (g c) := by
  induction r with
  | nil => rfl
  | cons p rest ih =>
      obtain ⟨c0, v0⟩ := p
      by_cases hc : c = c0
      · subst hc
        simp [List.lookup]
      · have hb : (c == c0) = false := by simp [hc]
        simpa [List.lookup, hb] using ih

/-- Looking up a name that none of the entries carry yields nothing. -/
theorem lookup_eq_none_of_ne (l : Row) (c : String)
    (h : ∀ p ∈ l, ¬ c = p.1) : l.lookup c = none := by
  induction l with
  | nil => rfl
  | cons p rest ih =>
      have hb : (c == p.1) = false := by
        simp [h p (List.mem_cons_self _ _)]
      obtain ⟨c0, v0⟩ := p
      simp only [List.lookup]
      rw [show (c == c0) = false from hb]
      exact ih (fun q hq => h q (List.mem_cons_of_mem _ hq))

/-- Appending entries whose names differ from the looked-up name does
not change the lookup. -/
theorem lookup_append_of_ne (r l : Row) (c : String)
    (hl : ∀ p ∈ l, ¬ c = p.1) : (r ++ l).lookup c = r.lookup c := by
  induction r with
  | nil => simpa using lookup_eq_none_of_ne l c hl
  | cons p rest ih =>
      obtain ⟨c0, v0⟩ := p
      by_cases hc : c = c0
      · subst hc
        simp [List.lookup]
      · have hb : (c == c0) = false := by simp [hc]
        simp only [List.cons_append, List.lookup, hb]
        exact ih

/-- Default-filling the timestamp columns does not change the primary
key. -/
theorem keyOf_stageRow (now : Int) (r : Row) :
    keyOf (stageRow now r) = keyOf r := by
  unfold keyOf stageRow
  refine lookup_append_of_ne r _ "trade_date" ?_
  intro p hp
  rcases List.mem_cons.mp hp with rfl | hp2
  · exact (by decide : ¬ "trade_date" = "created_at")
  · rcases List.mem_cons.mp hp2 with rfl | hp3
    · exact (by decide : ¬ "trade_date" = "updated_at")
    · simp at hp3

/-- For any column other than the two defaulted timestamps, the staged
row looks up exactly what the dict row looks up. -/
theorem lookup_stageRow_of_ne (now : Int) (r : Row) (c : String)
    (hca : ¬ c = "created_at") (hua : ¬ c = "updated_at") :
    (stageRow now r).lookup c = r.lookup c := by
  unfold stageRow
  apply lookup_append_of_ne
  intro p hp
  rcases List.mem_cons.mp hp with rfl | hp2
  · exact hca
  · rcases List.mem_cons.mp hp2 with rfl | hp3
    · exact hua
    · simp at hp3

/-- The staged rows carry the data rows' keys. -/
theorem staged_keys (now : Int) (data : List Row) :
    ((data.map (stageRow now)).map keyOf) = data.map keyOf := by
  rw [List.map_map]
  apply List.map_congr_left
  intro r _
  exact keyOf_stageRow now r

/-- Field names of a staged row: the dict columns followed by the two
timestamp columns. -/
theorem stageRow_fields (now : Int) (r : Row) :
    (stageRow now r).map Prod.fst =
      r.map Prod.fst ++ ["created_at", "updated_at"] := by
  simp [stageRow]

/-- The trigger only rewrites `updated_at`: the projection onto the
other columns is unchanged. -/
theorem stripUpdatedAt_touch (now : Int) (r : Row) :
    stripUpdatedAt (touchUpdatedAt now r) = stripUpdatedAt r := by
  unfold stripUpdatedAt touchUpdatedAt
  induction r with
  | nil => rfl
  | cons p rest ih =>
      obtain ⟨c0, v0⟩ := p
      rw [List.map_cons, List.filter_cons, List.filter_cons]
      by_cases hup : c0 = "updated_at"
      · have h1 : (decide ¬("updated_at" : String) = "updated_at") = false := by decide
        simp only [hup, h1]
        simpa using ih
      · have h1 : (decide ¬c0 = "updated_at") = true := by simp [hup]
        simp only [h1, if_pos]
        have h2 : (if c0 = "updated_at" then now else v0) = v0 := if_neg hup
        rw [h2]
        simpa using ih

/-- The trigger does not change the primary key. -/
theorem keyOf_touchUpdatedAt (now : Int) (r : Row) :
    keyOf (touchUpdatedAt now r) = keyOf r := by
  unfold keyOf touchUpdatedAt
  rw [lookup_map_value (fun f v => if f = "updated_at" then now else v) r
    "trade_date"]
  cases hr : r.lookup "trade_date" with
  | none => rfl
  | some v => simp

/-- Column lookup after the `DO UPDATE SET` merge with the trigger:
`updated_at` becomes the call timestamp, update columns take the
incoming value when the incoming row has the column, other columns keep
their value. -/
theorem lookup_mergeRow (r e : Row) (uf : List String) (now : Int)
    (c : String) :
    (mergeRow r e uf now).lookup c =
      (r.lookup c).map (fun v =>
        if c = "updated_at" then now
        else if c ∈ uf then (e.lookup c).getD v else v) := by
  unfold mergeRow
  exact lookup_map_value
    (fun f v => if f = "updated_at" then now
      else if f ∈ uf then (e.lookup f).getD v else v) r c

/-- Merging a row with an incoming row of the same key preserves the
primary key (`trade_date` is not the trigger's column). -/
theorem keyOf_mergeRow (r e : Row) (uf : List String) (now : Int)
    (hk : keyOf e = keyOf r) : keyOf (mergeRow r e uf now) = keyOf r := by
  unfold keyOf at *
  rw [lookup_mergeRow]
  cases hr : r.lookup "trade_date" with
  | none => rfl
  | some v =>
      simp only [Option.map_some']
      rw [if_neg (by decide : ¬ ("trade_date" : String) = "updated_at")]
      by_cases huf : "trade_date" ∈ uf
      · rw [if_pos huf]
        rw [hr] at hk
        rw [hk]
        rfl
      · rw [if_neg huf]

/-- A row that already agrees with the incoming row on every update
column other than `updated_at` is changed by the merge exactly as the
trigger alone would change it. -/
theorem mergeRow_touch_of_agree (r e : Row) (uf : List String) (now : Int)
    (h : ∀ p ∈ r, ¬ p.1 = "updated_at" → p.1 ∈ uf →
        (e.lookup p.1).getD p.2 = p.2) :
    mergeRow r e uf now = touchUpdatedAt now r := by
  unfold mergeRow touchUpdatedAt
  apply List.map_congr_left
  intro p hp
  by_cases hup : p.1 = "updated_at"
  · rw [if_pos hup, if_pos hup]
  · rw [if_neg hup, if_neg hup]
    by_cases h1 : p.1 ∈ uf
    · rw [if_pos h1, h p hp hup h1]
    · rw [if_neg h1]

/-- After a merge, the result agrees with the incoming row on every
update column other than `updated_at`. -/
theorem agree_mergeRow (r e : Row) (uf : List String) (now : Int) :
    ∀ p ∈ mergeRow r e uf now, ¬ p.1 = "updated_at" → p.1 ∈ uf →
      (e.lookup p.1).getD p.2 = p.2 := by
  intro p hp hup huf
  obtain ⟨q, hq, hfq⟩ := List.mem_map.mp hp
  have hq1 : p.1 = q.1 := by rw [← hfq]
  by_cases hqup : q.1 = "updated_at"
  · exact absurd (hq1 ▸ hqup) hup
  · have hfq2 : p.2 = (if q.1 ∈ uf then (e.lookup q.1).getD q.2 else q.2) := by
      rw [← hfq]
      simp [hqup]
    by_cases hql : q.1 ∈ uf
    · rw [if_pos hql] at hfq2
      rw [hq1, hfq2]
      cases hlk : e.lookup q.1 with
      | none => simp
      | some x => simp
    · exact absurd (hq1 ▸ huf) hql

/-- A dict agrees with itself on every update column. -/
theorem agree_self (e : Row) (uf : List String)
    (hnd : (e.map Prod.fst).Nodup) :
    ∀ p ∈ e, ¬ p.1 = "updated_at" → p.1 ∈ uf →
      (e.lookup p.1).getD p.2 = p.2 := by
  intro p hp _ _
  rw [lookup_of_mem_of_nodup e p.1 p.2 hnd hp]
  rfl

/-- One upsert either keeps the table's key list (update) or appends the
new key (insert). -/
theorem upsertOne_map_keyOf (uf : List String) (now : Int) (t : Table)
    (e : Row) :
    (upsertOne uf now t e).map keyOf =
      if t.any (fun r => keyOf r = keyOf e) then t.map keyOf
      else t.map keyOf ++ [keyOf e] := by
  unfold upsertOne
  by_cases h : t.any (fun r => keyOf r = keyOf e)
  · rw [if_pos h, if_pos h, List.map_map]
    apply List.map_congr_left
    intro r hr
    show keyOf (if keyOf r = keyOf e then mergeRow r e uf now else r) = keyOf r
    by_cases hk : keyOf r = keyOf e
    · rw [if_pos hk, keyOf_mergeRow r e uf now hk.symm]
    · rw [if_neg hk]
  · rw [if_neg h, if_neg h, List.map_append]
    rfl

/-- Upserting preserves distinctness of the table's primary keys. -/
theorem upsertOne_keyOf_nodup (uf : List String) (now : Int) (t : Table)
    (e : Row) (htk : (t.map keyOf).Nodup) :
    ((upsertOne uf now t e).map keyOf).Nodup := by
  rw [upsertOne_map_keyOf]
  by_cases h : t.any (fun r => keyOf r = keyOf e)
  · rw [if_pos h]
    exact htk
  · rw [if_neg h]
    have hne : keyOf e ∉ t.map keyOf := by
      intro hmem
      obtain ⟨r, hr, hkr⟩ := List.mem_map.mp hmem
      apply h
      exact List.any_eq_true.mpr ⟨r, hr, by simp [hkr]⟩
    simp [List.nodup_append, htk, hne]

/-- In a table with distinct primary keys, rows are determined by their
key. -/
theorem eq_of_keyOf_eq_of_nodup (t : Table) :
    (t.map keyOf).Nodup →
    ∀ r r', r ∈ t → r' ∈ t → keyOf r = keyOf r' → r = r' := by
  induction t with
  | nil => intro _ r r' hr; simp at hr
  | cons a rest ih =>
      intro htk r r' hr hr' hk
      have hhd : keyOf a ∉ rest.map keyOf :=
        (List.nodup_cons.mp (by simpa using htk)).1
      have htl : (rest.map keyOf).Nodup :=
        (List.nodup_cons.mp (by simpa using htk)).2
      rcases List.mem_cons.mp hr with rfl | hr2
      · rcases List.mem_cons.mp hr' with rfl | hr2'
        · rfl
        · exact absurd (hk ▸ List.mem_map_of_mem keyOf hr2') hhd
      · rcases List.mem_cons.mp hr' with rfl | hr2'
        · exact absurd (hk ▸ List.mem_map_of_mem keyOf hr2) hhd
        · exact ih htl r r' hr2 hr2' hk

/-- A row whose key conflicts with no staged row survives the merge
unchanged. -/
theorem mem_foldl_upsert_of_ne (uf : List String) (now : Int)
    (E : List Row) :
    ∀ (t : Table) (r : Row), r ∈ t → (∀ e ∈ E, ¬ keyOf e = keyOf r) →
    r ∈ E.foldl (upsertOne uf now) t := by
  induction E with
  | nil => intro t r hr _; exact hr
  | cons e E2 ih =>
      intro t r hr hkeys
      rw [List.foldl_cons]
      apply ih
      · unfold upsertOne
        by_cases h : t.any (fun x => keyOf x = keyOf e)
        · rw [if_pos h]
          have hne : ¬ keyOf r = keyOf e :=
            fun hh => hkeys e (List.mem_cons_self _ _) (hh.symm)
          have himg : (fun x => if keyOf x = keyOf e then mergeRow x e uf now
              else x) r = r := if_neg hne
          exact himg ▸ List.mem_map_of_mem _ hr
        · rw [if_neg h]
          exact List.mem_append_left _ hr
      · exact fun e2 he2 => hkeys e2 (List.mem_cons_of_mem _ he2)

/-- After merging staged rows with distinct keys into a table with
distinct keys: keys stay distinct, and every staged row has a row in the
result with its key that agrees with it on every update column other
than the trigger-maintained `updated_at`. -/
theorem foldl_upsert_invariant (uf : List String) (now : Int)
    (E : List Row)
    (hE : ∀ e ∈ E, (e.map Prod.fst).Nodup) (hkeys : (E.map keyOf).Nodup) :
    ∀ (t : Table), (t.map keyOf).Nodup →
    ((E.foldl (upsertOne uf now) t).map keyOf).Nodup ∧
    (∀ e ∈ E, ∃ r, r ∈ E.foldl (upsertOne uf now) t ∧ keyOf r = keyOf e ∧
        (∀ p ∈ r, ¬ p.1 = "updated_at" → p.1 ∈ uf →
          (e.lookup p.1).getD p.2 = p.2)) := by
  induction E with
  | nil => intro t htk; exact ⟨htk, by simp⟩
  | cons e E2 ih =>
      intro t htk
      have hhd : keyOf e ∉ E2.map keyOf :=
        (List.nodup_cons.mp (by simpa using hkeys)).1
      have htl : (E2.map keyOf).Nodup :=
        (List.nodup_cons.mp (by simpa using hkeys)).2
      have hE2 : ∀ x ∈ E2, (x.map Prod.fst).Nodup :=
        fun x hx => hE x (List.mem_cons_of_mem _ hx)
      have htk1 : ((upsertOne uf now t e).map keyOf).Nodup :=
        upsertOne_keyOf_nodup uf now t e htk
      obtain ⟨hnod, hinv⟩ := ih hE2 htl (upsertOne uf now t e) htk1
      rw [List.foldl_cons]
      refine ⟨hnod, ?_⟩
      intro e2 he2
      rcases List.mem_cons.mp he2 with rfl | hmem
      · have hentry : ∃ r, r ∈ upsertOne uf now t e2 ∧ keyOf r = keyOf e2 ∧
            (∀ p ∈ r, ¬ p.1 = "updated_at" → p.1 ∈ uf →
              (e2.lookup p.1).getD p.2 = p.2) := by
          unfold upsertOne
          by_cases h : t.any (fun r => keyOf r = keyOf e2)
          · rw [if_pos h]
            obtain ⟨r0, hr0, hk0⟩ := List.any_eq_true.mp h
            have hk02 : keyOf r0 = keyOf e2 := of_decide_eq_true hk0
            refine ⟨mergeRow r0 e2 uf now, ?_, ?_, ?_⟩
            · have himg : (fun r => if keyOf r = keyOf e2 then
                  mergeRow r e2 uf now else r) r0 = mergeRow r0 e2 uf now :=
                if_pos hk02
              exact himg ▸ List.mem_map_of_mem _ hr0
            · rw [keyOf_mergeRow r0 e2 uf now hk02.symm]
              exact hk02
            · exact agree_mergeRow r0 e2 uf now
          · rw [if_neg h]
            refine ⟨e2, List.mem_append_right _ (List.mem_singleton_self _),
              rfl, ?_⟩
            exact agree_self e2 uf (hE e2 (List.mem_cons_self _ _))
        obtain ⟨r, hrmem, hrk, hragree⟩ := hentry
        refine ⟨r, ?_, hrk, hragree⟩
        apply mem_foldl_upsert_of_ne uf now E2 _ r hrmem
        intro e3 he3 hcon
        apply hhd
        have h23 : keyOf e3 = keyOf e2 := hcon.trans hrk
        exact h23 ▸ List.mem_map_of_mem keyOf he3
      · exact hinv e2 hmem

/-- Merging staged rows into a table that already carries their
update-column values at their keys changes exactly the trigger-written
`updated_at` of the conflicting rows: every other column, and the key
list, are unchanged. -/
theorem foldl_upsert_touch (uf : List String) (now : Int) (E : List Row) :
    ∀ (t : Table), (t.map keyOf).Nodup → (E.map keyOf).Nodup →
    (∀ e ∈ E, ∃ r, r ∈ t ∧ keyOf r = keyOf e ∧
        mergeRow r e uf now = touchUpdatedAt now r) →
    (E.foldl (upsertOne uf now) t).map stripUpdatedAt =
      t.map stripUpdatedAt ∧
    (E.foldl (upsertOne uf now) t).map keyOf = t.map keyOf := by
  induction E with
  | nil => exact fun t _ _ _ => ⟨rfl, rfl⟩
  | cons e E2 ih =>
      intro t htk hEnd hfix
      obtain ⟨r, hrt, hrk, hrtouch⟩ := hfix e (List.mem_cons_self _ _)
      have hhd : keyOf e ∉ E2.map keyOf :=
        (List.nodup_cons.mp (by simpa using hEnd)).1
      have htl : (E2.map keyOf).Nodup :=
        (List.nodup_cons.mp (by simpa using hEnd)).2
      rw [List.foldl_cons]
      have hstep : upsertOne uf now t e =
          t.map (fun x => if keyOf x = keyOf e then touchUpdatedAt now x
            else x) := by
        unfold upsertOne
        have hany : t.any (fun x => keyOf x = keyOf e) = true :=
          List.any_eq_true.mpr ⟨r, hrt, by simp [hrk]⟩
        rw [if_pos hany]
        apply List.map_congr_left
        intro x hx
        by_cases hk : keyOf x = keyOf e
        · rw [if_pos hk, if_pos hk]
          have hxr : x = r :=
            eq_of_keyOf_eq_of_nodup t htk x r hx hrt (hk.trans hrk.symm)
          rw [hxr]
          exact hrtouch
        · rw [if_neg hk, if_neg hk]
      rw [hstep]
      have ht1keys : (t.map (fun x => if keyOf x = keyOf e then
          touchUpdatedAt now x else x)).map keyOf = t.map keyOf := by
        rw [List.map_map]
        apply List.map_congr_left
        intro x _
        show keyOf (if keyOf x = keyOf e then touchUpdatedAt now x else x)
          = keyOf x
        by_cases hk : keyOf x = keyOf e
        · rw [if_pos hk, keyOf_touchUpdatedAt]
        · rw [if_neg hk]
      have ht1strip : (t.map (fun x => if keyOf x = keyOf e then
          touchUpdatedAt now x else x)).map stripUpdatedAt =
            t.map stripUpdatedAt := by
        rw [List.map_map]
        apply List.map_congr_left
        intro x _
        show stripUpdatedAt (if keyOf x = keyOf e then touchUpdatedAt now x
          else x) = stripUpdatedAt x
        by_cases hk : keyOf x = keyOf e
        · rw [if_pos hk, stripUpdatedAt_touch]
        · rw [if_neg hk]
      have ht1nd : ((t.map (fun x => if keyOf x = keyOf e then
          touchUpdatedAt now x else x)).map keyOf).Nodup := by
        rw [ht1keys]
        exact htk
      have hfix2 : ∀ e2 ∈ E2, ∃ r2,
          r2 ∈ t.map (fun x => if keyOf x = keyOf e then
            touchUpdatedAt now x else x) ∧ keyOf r2 = keyOf e2 ∧
          mergeRow r2 e2 uf now = touchUpdatedAt now r2 := by
        intro e2 he2
        obtain ⟨r2, hr2, hk2, htc2⟩ := hfix e2 (List.mem_cons_of_mem _ he2)
        have hkne : ¬ keyOf r2 = keyOf e := by
          intro hcon
          apply hhd
          have h22 : keyOf e2 = keyOf e := (hk2.symm).trans hcon
          exact h22 ▸ List.mem_map_of_mem keyOf he2
        refine ⟨r2, ?_, hk2, htc2⟩
        have himg : (fun x => if keyOf x = keyOf e then touchUpdatedAt now x
            else x) r2 = r2 := if_neg hkne
        exact himg ▸ List.mem_map_of_mem _ hr2
      obtain ⟨ihs, ihk⟩ := ih _ ht1nd htl hfix2
      exact ⟨ihs.trans ht1strip, ihk.trans ht1keys⟩
/-- A `bulk_upsert` call whose staging succeeds and whose row keys are
distinct commits the merge of the default-filled staged rows and
returns `len(data)`. -/
theorem bulkUpsert_eval (now : Int) (t : Table) (r0 : Row)
    (rest : List Row) (uf : List String)
    (hufb : uf.isEmpty = false)
    (hext : extractAll (r0.map Prod.fst) (r0 :: rest) = some (r0 :: rest))
    (hpk : "trade_date" ∈ r0.map Prod.fst)
    (hkeys : ((r0 :: rest).map keyOf).Nodup) :
    bulkUpsert now t (r0 :: rest) uf =
      .ok (((r0 :: rest).map (stageRow now)).foldl (upsertOne uf now) t,
        (r0 :: rest).length) := by
  unfold bulkUpsert
  rw [hufb]
  simp only [Bool.false_eq_true, if_false]
  rw [hext]
  dsimp only
  rw [if_pos hpk, if_pos (by rw [staged_keys]; exact hkeys)]

/-- Claim C2 (counterexample): calling `bulk_upsert` twice with the same
single row does **not** leave every column unchanged — the `BEFORE
UPDATE` trigger rewrites the conflicting row's `updated_at` to the
second call's `CURRENT_TIMESTAMP` (here 100 then 200), so the table
after the second call differs from the table after the first. -/
theorem bulkUpsert_second_call_rewrites_updated_at :
    bulkUpsert 100 [] [[("trade_date", 20230101), ("open", 10)]] ["open"] =
      .ok ([[("trade_date", 20230101), ("open", 10),
             ("created_at", 100), ("updated_at", 100)]], 1) ∧
    bulkUpsert 200 [[("trade_date", 20230101), ("open", 10),
        ("created_at", 100), ("updated_at", 100)]]
        [[("trade_date", 20230101), ("open", 10)]] ["open"] =
      .ok ([[("trade_date", 20230101), ("open", 10),
             ("created_at", 100), ("updated_at", 200)]], 1) ∧
    ([[("trade_date", 20230101), ("open", 10), ("created_at", 100),
        ("updated_at", 200)]] : Table) ≠
      [[("trade_date", 20230101), ("open", 10), ("created_at", 100),
        ("updated_at", 100)]] := by
  refine ⟨by rfl, by rfl, by decide⟩

/-- Claim C2 (amended): `bulk_upsert` is idempotent in every column
except the trigger-maintained `updated_at`.  For every table with
distinct primary keys and every non-empty row list (dict-shaped rows
sharing the first row's columns — which include `trade_date` and, as
`build_stock_data_dict` guarantees, exclude the defaulted
`created_at`/`updated_at` — with distinct keys) and non-empty
`update_fields` not containing `created_at`: the first call returns
`len(data)`; an immediately repeated call with the same rows still
returns `len(data)` (rows processed, not rows changed), leaves the
key set identical and free of duplicates, and leaves every column other
than `updated_at` identical — `updated_at` alone is rewritten to the
second call's `CURRENT_TIMESTAMP` by the `BEFORE UPDATE` trigger on
every conflicting row. -/
theorem bulkUpsert_idempotent_up_to_updated_at (now1 now2 : Int)
    (t : Table) (r0 : Row) (rest : List Row) (uf : List String)
    (huf : uf ≠ [])
    (hcau : "created_at" ∉ uf)
    (hcols : ∀ r ∈ r0 :: rest, r.map Prod.fst = r0.map Prod.fst)
    (hnd0 : (r0.map Prod.fst).Nodup)
    (hpk : "trade_date" ∈ r0.map Prod.fst)
    (hca : "created_at" ∉ r0.map Prod.fst)
    (hua : "updated_at" ∉ r0.map Prod.fst)
    (hkeys : ((r0 :: rest).map keyOf).Nodup)
    (htk : (t.map keyOf).Nodup) :
    bulkUpsert now1 t (r0 :: rest) uf =
      .ok (upsertResultTable now1 t (r0 :: rest) uf, (r0 :: rest).length) ∧
    bulkUpsert now2 (upsertResultTable now1 t (r0 :: rest) uf)
        (r0 :: rest) uf =
      .ok (upsertResultTable now2 (upsertResultTable now1 t (r0 :: rest) uf)
            (r0 :: rest) uf, (r0 :: rest).length) ∧
    (upsertResultTable now2 (upsertResultTable now1 t (r0 :: rest) uf)
        (r0 :: rest) uf).map stripUpdatedAt =
      (upsertResultTable now1 t (r0 :: rest) uf).map stripUpdatedAt ∧
    (upsertResultTable now2 (upsertResultTable now1 t (r0 :: rest) uf)
        (r0 :: rest) uf).map keyOf =
      (upsertResultTable now1 t (r0 :: rest) uf).map keyOf ∧
    ((upsertResultTable now1 t (r0 :: rest) uf).map keyOf).Nodup ∧
    ((upsertResultTable now2 (upsertResultTable now1 t (r0 :: rest) uf)
        (r0 :: rest) uf).map keyOf).Nodup := by
  have hufb : uf.isEmpty = false := by
    cases uf with
    | nil => exact absurd rfl huf
    | cons a l => rfl
  have hext : extractAll (r0.map Prod.fst) (r0 :: rest) = some (r0 :: rest) :=
    extractAll_self (r0.map Prod.fst) hnd0 (r0 :: rest) hcols
  have heval1 := bulkUpsert_eval now1 t r0 rest uf hufb hext hpk hkeys
  set T1 := upsertResultTable now1 t (r0 :: rest) uf with hT1
  have hres1 : T1 = ((r0 :: rest).map (stageRow now1)).foldl
      (upsertOne uf now1) t := by
    rw [hT1]
    unfold upsertResultTable
    rw [heval1]
  have heval2 := bulkUpsert_eval now2 T1 r0 rest uf hufb hext hpk hkeys
  set T2 := upsertResultTable now2 T1 (r0 :: rest) uf with hT2
  have hres2 : T2 = ((r0 :: rest).map (stageRow now2)).foldl
      (upsertOne uf now2) T1 := by
    rw [hT2]
    unfold upsertResultTable
    rw [heval2]
  have hstagedfields : ∀ e ∈ (r0 :: rest).map (stageRow now1),
      (e.map Prod.fst).Nodup := by
    intro e he
    obtain ⟨d, hd, rfl⟩ := List.mem_map.mp he
    rw [stageRow_fields, hcols d hd]
    have hcu : ("created_at" : String) ≠ "updated_at" := by decide
    simp [List.nodup_append, hnd0, hca, hua, hcu]
  have hstagedkeys1 : (((r0 :: rest).map (stageRow now1)).map keyOf).Nodup := by
    rw [staged_keys]
    exact hkeys
  obtain ⟨hnod1, hinv1⟩ := foldl_upsert_invariant uf now1
    ((r0 :: rest).map (stageRow now1)) hstagedfields hstagedkeys1 t htk
  rw [← hres1] at hnod1 hinv1
  have hfix : ∀ e ∈ (r0 :: rest).map (stageRow now2), ∃ r, r ∈ T1 ∧
      keyOf r = keyOf e ∧ mergeRow r e uf now2 = touchUpdatedAt now2 r := by
    intro e he
    obtain ⟨d, hd, rfl⟩ := List.mem_map.mp he
    obtain ⟨r, hrmem, hrk, hagree⟩ :=
      hinv1 (stageRow now1 d) (List.mem_map_of_mem _ hd)
    refine ⟨r, hrmem, ?_, ?_⟩
    · rw [hrk, keyOf_stageRow, keyOf_stageRow]
    · apply mergeRow_touch_of_agree
      intro p hp hup hufp
      have hpc : ¬ p.1 = "created_at" := fun hc => hcau (hc ▸ hufp)
      rw [lookup_stageRow_of_ne now2 d p.1 hpc hup]
      have hdp := hagree p hp hup hufp
      rw [lookup_stageRow_of_ne now1 d p.1 hpc hup] at hdp
      exact hdp
  have hstagedkeys2 : (((r0 :: rest).map (stageRow now2)).map keyOf).Nodup := by
    rw [staged_keys]
    exact hkeys
  obtain ⟨hstrip, hkeq⟩ := foldl_upsert_touch uf now2
    ((r0 :: rest).map (stageRow now2)) T1 hnod1 hstagedkeys2 hfix
  rw [← hres2] at hstrip hkeq
  refine ⟨?_, ?_, hstrip, hkeq, hnod1, ?_⟩
  · rw [heval1, hres1]
  · rw [heval2, hres2]
  · rw [hkeq]
    exact hnod1
/-- Witness for C2's amended theorem: two rows upserted at timestamp 100
and again at timestamp 200 into an empty table. -/
theorem bulkUpsert_idempotent_up_to_updated_at_witness :
    bulkUpsert 100 [] [[("trade_date", 20230101), ("open", 10)],
        [("trade_date", 20230102), ("open", 11)]] ["open"] =
      .ok (upsertResultTable 100 [] [[("trade_date", 20230101), ("open", 10)],
            [("trade_date", 20230102), ("open", 11)]] ["open"],
        ([[("trade_date", (20230101 : Int)), ("open", 10)],
          [("trade_date", 20230102), ("open", 11)]] : List Row).length) ∧
    bulkUpsert 200 (upsertResultTable 100 []
        [[("trade_date", 20230101), ("open", 10)],
          [("trade_date", 20230102), ("open", 11)]] ["open"])
        [[("trade_date", 20230101), ("open", 10)],
          [("trade_date", 20230102), ("open", 11)]] ["open"] =
      .ok (upsertResultTable 200 (upsertResultTable 100 []
            [[("trade_date", 20230101), ("open", 10)],
              [("trade_date", 20230102), ("open", 11)]] ["open"])
            [[("trade_date", 20230101), ("open", 10)],
              [("trade_date", 20230102), ("open", 11)]] ["open"],
        ([[("trade_date", (20230101 : Int)), ("open", 10)],
          [("trade_date", 20230102), ("open", 11)]] : List Row).length) ∧
    (upsertResultTable 200 (upsertResultTable 100 []
        [[("trade_date", 20230101), ("open", 10)],
          [("trade_date", 20230102), ("open", 11)]] ["open"])
        [[("trade_date", 20230101), ("open", 10)],
          [("trade_date", 20230102), ("open", 11)]] ["open"]).map
        stripUpdatedAt =
      (upsertResultTable 100 [] [[("trade_date", 20230101), ("open", 10)],
          [("trade_date", 20230102), ("open", 11)]] ["open"]).map
        stripUpdatedAt ∧
    (upsertResultTable 200 (upsertResultTable 100 []
        [[("trade_date", 20230101), ("open", 10)],
          [("trade_date", 20230102), ("open", 11)]] ["open"])
        [[("trade_date", 20230101), ("open", 10)],
          [("trade_date", 20230102), ("open", 11)]] ["open"]).map keyOf =
      (upsertResultTable 100 [] [[("trade_date", 20230101), ("open", 10)],
          [("trade_date", 20230102), ("open", 11)]] ["open"]).map keyOf ∧
    ((upsertResultTable 100 [] [[("trade_date", 20230101), ("open", 10)],
        [("trade_date", 20230102), ("open", 11)]] ["open"]).map keyOf).Nodup ∧
    ((upsertResultTable 200 (upsertResultTable 100 []
        [[("trade_date", 20230101), ("open", 10)],
          [("trade_date", 20230102), ("open", 11)]] ["open"])
        [[("trade_date", 20230101), ("open", 10)],
          [("trade_date", 20230102), ("open", 11)]] ["open"]).map
        keyOf).Nodup :=
  bulkUpsert_idempotent_up_to_updated_at 100 200 []
    [("trade_date", 20230101), ("open", 10)]
    [[("trade_date", 20230102), ("open", 11)]] ["open"]
    (by decide) (by decide) (by decide) (by decide) (by decide) (by decide)
    (by decide) (by decide) (by decide)
end MyAnsys
